import Mathlib

/-!
Verification development for the yoghurt production sequencing engine
(`src/sequencer.py`, `src/agent.py`, `src/risk_model.py`).

The Python code is shallowly embedded: pandas rows become records, numeric
columns become `Option ℚ` (None / NaN collapse to `none`), floats become `ℚ`
(every numeric constant of the source is integral or a short decimal, hence
exactly representable), and dataframe column assignments become record fields.
-/

namespace ProdSeq

/-! ### String helpers

The Python string operations (`.lower()`, `x in s`, `.startswith`, `.strip()`,
`re.sub(r"\s+", " ", ·)`) are embedded as structurally recursive functions
over `String.data`, so that every definition evaluates by kernel reduction. -/

/-- Python `str.lower()` (ASCII case folding, which covers every string the
source manipulates). -/
def lowerStr (s : String) : String := ⟨s.data.map Char.toLower⟩

/-- `pat` is a prefix of `text` (character lists). -/
def prefOf : List Char → List Char → Bool
  | [], _ => true
  | _ :: _, [] => false
  | a :: as, b :: bs => a == b && prefOf as bs

/-- `pat` occurs contiguously inside `text` (character lists). -/
def occursIn (pat : List Char) : List Char → Bool
  | [] => pat.isEmpty
  | c :: rest => prefOf pat (c :: rest) || occursIn pat rest

/-- Python `pat in s` (substring containment). -/
def strContains (s pat : String) : Bool := occursIn pat.data s.data

/-- Python `s.startswith(pat)`. -/
def strStarts (s pat : String) : Bool := prefOf pat.data s.data

/-- Python `str.strip()` on a character list. -/
def trimData (l : List Char) : List Char :=
  ((l.dropWhile Char.isWhitespace).reverse.dropWhile Char.isWhitespace).reverse

/-- Python `str.strip()`. -/
def trimStr (s : String) : String := ⟨trimData s.data⟩

/-- Collapse every run of whitespace to a single space
(`re.sub(r"\s+", " ", ·)`); the flag records whether the previous character
was whitespace. -/
def collapseWs : Bool → List Char → List Char
  | _, [] => []
  | prevWs, c :: rest =>
    if c.isWhitespace then
      if prevWs then collapseWs true rest else ' ' :: collapseWs true rest
    else c :: collapseWs false rest

/-- `norm_text` from `src/risk_model.py`: lowercase, trim, collapse internal
whitespace (`None`/`NA` inputs arrive here as `""`). -/
def norm_text (s : String) : String :=
  ⟨collapseWs false (trimData (s.data.map Char.toLower))⟩

/-! ### Transition cost model (`src/sequencer.py`)

All the cost weights of the source are integral floats and the code only
ever adds and compares them, so they are embedded as `ℤ`. -/

/-- `ChangeoverConfig` from `src/sequencer.py` (time weights in minutes). -/
structure ChangeoverConfig where
  BASE_PRODUCT_CHANGE_MIN : ℤ := 10
  FLAVOUR_CHANGE_EXTRA_MIN : ℤ := 12
  PLAIN_TO_FLAVOURED_EXTRA_MIN : ℤ := 8
  GRANOLA_CHANGE_EXTRA_MIN : ℤ := 15
  WASHDOWN_MIN : ℤ := 25
  FULL_WASHDOWN_MIN : ℤ := 45
  M3_ALWAYS_WASHDOWN_ON_PRODUCT_CHANGE : Bool := true
deriving DecidableEq

/-- The module-level default configuration `CFG = ChangeoverConfig()`. -/
def CFG : ChangeoverConfig := {}

/-- The feature dictionary produced by `make_features` in `src/sequencer.py`
(key `"pack"` is carried along but never read by `transition_cost`). -/
structure Feat where
  product_name : String
  flavour : String
  is_plain : Bool
  is_granola : Bool
  has_choc : Bool
  has_nut_risk : Bool
  pack : Option ℚ
  machine : String
deriving DecidableEq, Inhabited

/-- `transition_cost` from `src/sequencer.py` (lines 74–128).  The imperative
accumulation over `(cost, washdown, reasons)` is transcribed as a chain of
state updates `s0 … s7`, one per `if` block, in source order; the nested
`if a["machine"] == "M3" and cfg.M3_…:` / `if a["product_name"] != …:` pair
is flattened into one conjunction.  Python's string truthiness
(`a["flavour"] and b["flavour"]`) becomes `≠ ""`. -/
def transition_cost (a b : Feat) (cfg : ChangeoverConfig) : ℤ × Bool × String :=
  if a.machine ≠ b.machine then
    ((1000000000 : ℤ), true, "Different machine")
  else
    let s0 : ℤ × Bool × List String := (0, false, [])
    let s1 := if a.product_name ≠ b.product_name then
        (s0.1 + cfg.BASE_PRODUCT_CHANGE_MIN, s0.2.1, s0.2.2 ++ ["product change"])
      else s0
    let s2 := if a.machine = "M3" ∧ cfg.M3_ALWAYS_WASHDOWN_ON_PRODUCT_CHANGE = true
                ∧ a.product_name ≠ b.product_name then
        (s1.1 + cfg.WASHDOWN_MIN, true, s1.2.2 ++ ["M3 granola washdown"])
      else s1
    let s3 := if a.flavour ≠ "" ∧ b.flavour ≠ "" ∧ a.flavour ≠ b.flavour then
        (s2.1 + cfg.FLAVOUR_CHANGE_EXTRA_MIN, true,
          s2.2.2 ++ ["flavour change " ++ a.flavour ++ "→" ++ b.flavour])
      else s2
    let s4 := if a.is_plain ≠ b.is_plain then
        (s3.1 + cfg.PLAIN_TO_FLAVOURED_EXTRA_MIN, true, s3.2.2 ++ ["plain↔flavoured switch"])
      else s3
    let s5 := if a.is_granola ≠ b.is_granola then
        (s4.1 + cfg.GRANOLA_CHANGE_EXTRA_MIN, true, s4.2.2 ++ ["granola↔non-granola"])
      else s4
    let s6 := if a.has_nut_risk ≠ b.has_nut_risk then
        (s5.1 + (cfg.FULL_WASHDOWN_MIN - cfg.WASHDOWN_MIN), true,
          s5.2.2 ++ ["allergen risk shift (full washdown)"])
      else s5
    let s7 := if a.has_choc ≠ b.has_choc then
        (s6.1 + (cfg.FULL_WASHDOWN_MIN - cfg.WASHDOWN_MIN), true,
          s6.2.2 ++ ["choc/non-choc shift (full washdown)"])
      else s6
    (s7.1, s7.2.1, if s7.2.2 = [] then "no change" else String.intercalate "; " s7.2.2)

/-- Trigger condition: product name differs (base changeover, `+10`). -/
abbrev trigProduct (a b : Feat) : Prop := a.product_name ≠ b.product_name

/-- Trigger condition: M3 product change (`+25`, washdown); the default
configuration has `M3_ALWAYS_WASHDOWN_ON_PRODUCT_CHANGE = True`. -/
abbrev trigM3 (a b : Feat) : Prop := a.machine = "M3" ∧ a.product_name ≠ b.product_name

/-- Trigger condition: both flavour labels non-empty and different (`+12`). -/
abbrev trigFlavour (a b : Feat) : Prop :=
  a.flavour ≠ "" ∧ b.flavour ≠ "" ∧ a.flavour ≠ b.flavour

/-- Trigger condition: plain/flavoured switch (`+8`). -/
abbrev trigPlain (a b : Feat) : Prop := a.is_plain ≠ b.is_plain

/-- Trigger condition: granola/non-granola switch (`+15`). -/
abbrev trigGranola (a b : Feat) : Prop := a.is_granola ≠ b.is_granola

/-- Trigger condition: nut-risk shift (`+45−25 = +20`). -/
abbrev trigNut (a b : Feat) : Prop := a.has_nut_risk ≠ b.has_nut_risk

/-- Trigger condition: chocolate shift (`+45−25 = +20`). -/
abbrev trigChoc (a b : Feat) : Prop := a.has_choc ≠ b.has_choc

/-- Closed form of `transition_cost` at the default configuration on a
same-machine pair: cost is the sum of per-trigger deltas, washdown is the
disjunction of the washdown-flagged triggers, reasons accumulate in order. -/
theorem transition_cost_eval (a b : Feat) (h : a.machine = b.machine) :
    transition_cost a b CFG =
      ( (if trigProduct a b then (10 : ℤ) else 0)
        + (if trigM3 a b then (25 : ℤ) else 0)
        + (if trigFlavour a b then (12 : ℤ) else 0)
        + (if trigPlain a b then (8 : ℤ) else 0)
        + (if trigGranola a b then (15 : ℤ) else 0)
        + (if trigNut a b then (20 : ℤ) else 0)
        + (if trigChoc a b then (20 : ℤ) else 0),
        decide (trigM3 a b ∨ trigFlavour a b ∨ trigPlain a b ∨ trigGranola a b
          ∨ trigNut a b ∨ trigChoc a b),
        (if ((if trigProduct a b then ["product change"] else [])
              ++ (if trigM3 a b then ["M3 granola washdown"] else [])
              ++ (if trigFlavour a b then
                    ["flavour change " ++ a.flavour ++ "→" ++ b.flavour] else [])
              ++ (if trigPlain a b then ["plain↔flavoured switch"] else [])
              ++ (if trigGranola a b then ["granola↔non-granola"] else [])
              ++ (if trigNut a b then ["allergen risk shift (full washdown)"] else [])
              ++ (if trigChoc a b then ["choc/non-choc shift (full washdown)"] else [])) = []
          then "no change"
          else String.intercalate "; "
            ((if trigProduct a b then ["product change"] else [])
              ++ (if trigM3 a b then ["M3 granola washdown"] else [])
              ++ (if trigFlavour a b then
                    ["flavour change " ++ a.flavour ++ "→" ++ b.flavour] else [])
              ++ (if trigPlain a b then ["plain↔flavoured switch"] else [])
              ++ (if trigGranola a b then ["granola↔non-granola"] else [])
              ++ (if trigNut a b then ["allergen risk shift (full washdown)"] else [])
              ++ (if trigChoc a b then ["choc/non-choc shift (full washdown)"] else [])))) := by
  have hb : b.machine = a.machine := h.symm
  by_cases h1 : a.product_name = b.product_name <;>
    by_cases h2 : a.machine = "M3" <;>
    by_cases h3 : a.flavour ≠ "" ∧ b.flavour ≠ "" ∧ a.flavour ≠ b.flavour <;>
    by_cases h4 : a.is_plain = b.is_plain <;>
    by_cases h5 : a.is_granola = b.is_granola <;>
    by_cases h6 : a.has_nut_risk = b.has_nut_risk <;>
    by_cases h7 : a.has_choc = b.has_choc <;>
    simp [transition_cost, trigProduct, trigM3, trigFlavour, trigPlain, trigGranola,
      trigNut, trigChoc, CFG, hb, h1, h2, h3, h4, h5, h6, h7]

/-- Every transition cost at the default configuration is below the greedy
loop's `1e18` sentinel (cross-machine transitions cost `1e9`, same-machine
transitions at most `10+25+12+8+15+20+20`). -/
theorem transition_cost_lt_sentinel (a b : Feat) :
    (transition_cost a b CFG).1 < (1000000000000000000 : ℤ) := by
  by_cases h : a.machine = b.machine
  · rw [transition_cost_eval a b h]
    dsimp only
    split_ifs <;> norm_num
  · have h' : a.machine ≠ b.machine := h
    simp [transition_cost, h']

/-- C1.  On a same-machine pair, `transition_cost` returns minutes equal to
the sum of exactly the fired trigger deltas (+10 product change; +25 M3
product change; +12 flavour change with both labels non-empty; +8 plain
switch; +15 granola switch; +20 nut-risk shift; +20 chocolate shift), and
washdown is true iff at least one washdown-flagged trigger (all but the +10
base) fired. -/
theorem C1_transition_cost_additive (a b : Feat) (h : a.machine = b.machine) :
    (transition_cost a b CFG).1 =
      (if trigProduct a b then (10 : ℤ) else 0)
      + (if trigM3 a b then (25 : ℤ) else 0)
      + (if trigFlavour a b then (12 : ℤ) else 0)
      + (if trigPlain a b then (8 : ℤ) else 0)
      + (if trigGranola a b then (15 : ℤ) else 0)
      + (if trigNut a b then (20 : ℤ) else 0)
      + (if trigChoc a b then (20 : ℤ) else 0)
    ∧ ((transition_cost a b CFG).2.1 = true ↔
        (trigM3 a b ∨ trigFlavour a b ∨ trigPlain a b ∨ trigGranola a b
          ∨ trigNut a b ∨ trigChoc a b)) := by
  rw [transition_cost_eval a b h]
  exact ⟨rfl, by simp⟩

/-- Concrete instance for C1: a plain M1 job against a chocolate-flavoured M1
job; base + flavour + plain + chocolate triggers fire (10+12+8+20 = 50). -/
def featPlainM1 : Feat :=
  { product_name := "Natural 150g", flavour := "plain", is_plain := true,
    is_granola := false, has_choc := false, has_nut_risk := false,
    pack := some 150, machine := "M1" }

/-- Concrete instance for C1 (second job of the pair). -/
def featChocM1 : Feat :=
  { product_name := "Choc 150g", flavour := "chocolate", is_plain := false,
    is_granola := false, has_choc := true, has_nut_risk := false,
    pack := some 150, machine := "M1" }

/-- Witness for C1 at the concrete pair `featPlainM1`, `featChocM1`. -/
theorem C1_transition_cost_additive_witness :
    featPlainM1.machine = featChocM1.machine
    ∧ ((transition_cost featPlainM1 featChocM1 CFG).1 =
        (if trigProduct featPlainM1 featChocM1 then (10 : ℤ) else 0)
        + (if trigM3 featPlainM1 featChocM1 then (25 : ℤ) else 0)
        + (if trigFlavour featPlainM1 featChocM1 then (12 : ℤ) else 0)
        + (if trigPlain featPlainM1 featChocM1 then (8 : ℤ) else 0)
        + (if trigGranola featPlainM1 featChocM1 then (15 : ℤ) else 0)
        + (if trigNut featPlainM1 featChocM1 then (20 : ℤ) else 0)
        + (if trigChoc featPlainM1 featChocM1 then (20 : ℤ) else 0)
      ∧ ((transition_cost featPlainM1 featChocM1 CFG).2.1 = true ↔
          (trigM3 featPlainM1 featChocM1 ∨ trigFlavour featPlainM1 featChocM1
            ∨ trigPlain featPlainM1 featChocM1 ∨ trigGranola featPlainM1 featChocM1
            ∨ trigNut featPlainM1 featChocM1 ∨ trigChoc featPlainM1 featChocM1))) :=
  ⟨by decide, C1_transition_cost_additive featPlainM1 featChocM1 (by decide)⟩

/-- C9.  The transition cost is symmetric in magnitude: swapping the pair
preserves both the minutes and the washdown flag (only the reason text is
directional). -/
theorem C9_transition_cost_symmetric (a b : Feat) :
    (transition_cost a b CFG).1 = (transition_cost b a CFG).1
    ∧ (transition_cost a b CFG).2.1 = (transition_cost b a CFG).2.1 := by
  by_cases h : a.machine = b.machine
  · have e1 : trigProduct a b ↔ trigProduct b a := ne_comm
    have e2 : trigM3 a b ↔ trigM3 b a := by
      constructor <;> rintro ⟨m, p⟩
      · exact ⟨h.symm.trans m, p.symm⟩
      · exact ⟨h.trans m, p.symm⟩
    have e3 : trigFlavour a b ↔ trigFlavour b a := by
      constructor <;> rintro ⟨x, y, z⟩ <;> exact ⟨y, x, z.symm⟩
    have e4 : trigPlain a b ↔ trigPlain b a := ne_comm
    have e5 : trigGranola a b ↔ trigGranola b a := ne_comm
    have e6 : trigNut a b ↔ trigNut b a := ne_comm
    have e7 : trigChoc a b ↔ trigChoc b a := ne_comm
    rw [transition_cost_eval a b h, transition_cost_eval b a h.symm]
    constructor
    · dsimp only
      rw [if_congr e1 rfl rfl, if_congr e2 rfl rfl, if_congr e3 rfl rfl,
        if_congr e4 rfl rfl, if_congr e5 rfl rfl, if_congr e6 rfl rfl,
        if_congr e7 rfl rfl]
    · dsimp only
      simp only [e2, e3, e4, e5, e6, e7]
  · have h' : a.machine ≠ b.machine := h
    have h'' : b.machine ≠ a.machine := fun e => h e.symm
    simp [transition_cost, h', h'']

/-- C10.  A self-transition fires no trigger: zero minutes, no washdown, and
the reason string `"no change"`. -/
theorem C10_transition_cost_refl (a : Feat) :
    transition_cost a a CFG = (0, false, "no change") := by
  rw [transition_cost_eval a a rfl]
  simp

/-! ### Machine classifier (`src/agent.py`, lines 40–64; identical copy in
`dashboard.py`)

`M2_150_OVERRIDES` is a module-level configuration table (empty by default,
populated with exact product names); it is passed explicitly here.  A pandas
cell value for `pack_size_g` is `Option ℚ` (`None`/`NaN` ↦ `none`; Python's
`None in [2000, …]` and `NaN in [2000, …]` are false, as is `none = some _`).
`src/normalize.py` holds an older divergent variant of `assign_machine`
(no overrides, `"kg" in s`, default `UNKNOWN_LINE`); the spec (§4.1 and its
open question) documents the `agent.py` rules, which are what is embedded. -/

/-- Rule 2 guard: bucket-size token in the lowered name, or bucket pack size. -/
abbrev bucketCond (pn : String) (pack : Option ℚ) : Prop :=
  (strContains (lowerStr pn) "2kg" || strContains (lowerStr pn) "5kg"
    || strContains (lowerStr pn) "10kg") = true
  ∨ pack = some 2000 ∨ pack = some 5000 ∨ pack = some 10000

/-- Rule 3 guard: `"granola" in pn_l or pn_l.startswith("ss ")`. -/
abbrev granolaCond (pn : String) : Prop :=
  (strContains (lowerStr pn) "granola" || strStarts (lowerStr pn) "ss ") = true

/-- Rule 4 guard: 450 g pots. -/
abbrev m2Cond (pn : String) (pack : Option ℚ) : Prop :=
  pack = some 450 ∨ strContains (lowerStr pn) "450g" = true

/-- Rule 5 guard: 150/170/175 g pots. -/
abbrev m1Cond (pn : String) (pack : Option ℚ) : Prop :=
  (pack = some 150 ∨ pack = some 170 ∨ pack = some 175)
  ∨ (strContains (lowerStr pn) "150g" || strContains (lowerStr pn) "170g"
      || strContains (lowerStr pn) "175g") = true

/-- `assign_machine` from `src/agent.py`: first-match-wins rule chain. -/
def assign_machine (overrides : List String) (pn : String) (pack : Option ℚ) : String :=
  if pn ∈ overrides then "M2"
  else if bucketCond pn pack then "BUCKET_LINE"
  else if granolaCond pn then "M3"
  else if m2Cond pn pack then "M2"
  else if m1Cond pn pack then "M1"
  else "M1"

/-- C3.  The classifier applies its rules in first-match-wins order:
override → M2; bucket sizes/tokens → BUCKET_LINE; granola or `"SS "` prefix
→ M3; 450 g → M2; 150/170/175 g → M1; otherwise → M1.  In particular an
overridden product is M2 even when a later rule (such as the 150 g M1 rule)
also matches — the first conjunct carries no side conditions. -/
theorem C3_assign_machine_rules (ov : List String) (pn : String) (pack : Option ℚ) :
    (pn ∈ ov → assign_machine ov pn pack = "M2")
    ∧ (pn ∉ ov → bucketCond pn pack → assign_machine ov pn pack = "BUCKET_LINE")
    ∧ (pn ∉ ov → ¬ bucketCond pn pack → granolaCond pn →
        assign_machine ov pn pack = "M3")
    ∧ (pn ∉ ov → ¬ bucketCond pn pack → ¬ granolaCond pn → m2Cond pn pack →
        assign_machine ov pn pack = "M2")
    ∧ (pn ∉ ov → ¬ bucketCond pn pack → ¬ granolaCond pn → ¬ m2Cond pn pack →
        m1Cond pn pack → assign_machine ov pn pack = "M1")
    ∧ (pn ∉ ov → ¬ bucketCond pn pack → ¬ granolaCond pn → ¬ m2Cond pn pack →
        ¬ m1Cond pn pack → assign_machine ov pn pack = "M1") := by
  refine ⟨fun h1 => ?_, fun h1 h2 => ?_, fun h1 h2 h3 => ?_, fun h1 h2 h3 h4 => ?_,
    fun h1 h2 h3 h4 h5 => ?_, fun h1 h2 h3 h4 h5 => ?_⟩
  · unfold assign_machine; rw [if_pos h1]
  · unfold assign_machine; rw [if_neg h1, if_pos h2]
  · unfold assign_machine; rw [if_neg h1, if_neg h2, if_pos h3]
  · unfold assign_machine; rw [if_neg h1, if_neg h2, if_neg h3, if_pos h4]
  · unfold assign_machine; rw [if_neg h1, if_neg h2, if_neg h3, if_neg h4, if_pos h5]
  · unfold assign_machine; rw [if_neg h1, if_neg h2, if_neg h3, if_neg h4, if_neg h5]

/-- Witness for C3: the spec's Scenario D — a 150 g product listed in the
override table is classified M2 although the 150 g rule would send it to M1. -/
theorem C3_assign_machine_rules_witness :
    assign_machine ["C.SomeProduct 150g"] "C.SomeProduct 150g" (some 150) = "M2" :=
  (C3_assign_machine_rules ["C.SomeProduct 150g"] "C.SomeProduct 150g" (some 150)).1
    (by decide)

/-! ### Risk scorer (`src/risk_model.py`, `_score_row`)

A pandas row is embedded with a presence flag per optional column
(`"ph" in row.index`, `"pack_size_g" in row.index`, `"machine" in row.index`)
next to the cell value; `None`/`NA`/NaN/unparsable cells are `none`
(`_to_float`).  The float weights 0.25, 1.2, … are short decimals, embedded
exactly in `ℚ`.  `ratStr` stands in for Python's numeric string formatting
(`f"{v:.2f}"`, `int(v)`); no claim depends on the rendered digits. -/

/-- Abstracted numeral rendering used inside parametric reason strings. -/
def ratStr (q : ℚ) : String := toString q

/-- Default pH band lower bound. -/
def DEFAULT_PH_MIN : ℚ := 3.6

/-- Default pH band upper bound. -/
def DEFAULT_PH_MAX : ℚ := 4.9

/-- A job record as seen by `_score_row`. -/
structure RiskRow where
  product_name : String
  flavour_label : String
  machine : String
  ph_present : Bool
  ph : Option ℚ
  pack_present : Bool
  pack_size_g : Option ℚ
  machine_present : Bool
deriving DecidableEq, Inhabited

/-- The `complex_keywords` list of `_score_row`. -/
def complex_keywords : List String :=
  ["granola", "white choc", "white chocolate", "tophat", "top hat", "layered",
    "pieces", "bits"]

/-- `_contains_any` from `src/risk_model.py` (normalizes the text, then
substring-checks each keyword). -/
def contains_any (text : String) (ks : List String) : Bool :=
  ks.any (fun k => strContains (norm_text text) k)

/-- Rule 1 of `_score_row`: pH checks (only if the pH column exists). -/
def ph_part (pm pM : ℚ) (r : RiskRow) : ℚ × List String :=
  if r.ph_present = true then
    match r.ph with
    | none => (0.25, ["pH missing"])
    | some v =>
      if v < pm ∨ v > pM then
        (1.2, ["pH out of range (" ++
          (ratStr v ++ "; spec " ++ ratStr pm ++ "-" ++ ratStr pM ++ ")")])
      else if v < pm + 0.1 ∨ v > pM - 0.1 then
        (0.35, ["pH near limit (" ++ (ratStr v ++ ")")])
      else (0, [])
  else (0, [])

/-- Rule 2 of `_score_row`: complex-formulation keyword in name or flavour. -/
def complex_part (r : RiskRow) : ℚ × List String :=
  if (contains_any (norm_text r.product_name) complex_keywords
      || contains_any (norm_text r.flavour_label) complex_keywords) = true then
    (0.40, ["complex formulation"])
  else (0, [])

/-- Rule 3 of `_score_row`: pack size missing/≤0, else unusual range
(the `else` arm makes the two +0.20 penalties mutually exclusive). -/
def pack_part (r : RiskRow) : ℚ × List String :=
  if r.pack_present = true then
    match r.pack_size_g with
    | none => (0.20, ["pack size missing/invalid"])
    | some v =>
      if v ≤ 0 then (0.20, ["pack size missing/invalid"])
      else if v < 80 ∨ v > 12000 then
        (0.20, ["unusual pack size (" ++ (ratStr v ++ "g)")])
      else (0, [])
  else (0, [])

/-- Rule 4 of `_score_row`: machine column present but blank. -/
def machine_part (r : RiskRow) : ℚ × List String :=
  if r.machine_present = true ∧ norm_text r.machine = "" then
    (0.15, ["machine not assigned"])
  else (0, [])

/-- Rule 5 of `_score_row`: empty product name (defensive). -/
def name_part (r : RiskRow) : ℚ × List String :=
  if norm_text r.product_name = "" then (0.60, ["product name missing"])
  else (0, [])

/-- `_score_row` from `src/risk_model.py`: the five additive rules, scores
summed and reasons concatenated in source order (the joined display string is
`risk_reason_text`). -/
def score_row (pm pM : ℚ) (r : RiskRow) : ℚ × List String :=
  (( ph_part pm pM r).1 + (complex_part r).1 + (pack_part r).1
      + (machine_part r).1 + (name_part r).1,
    (ph_part pm pM r).2 ++ (complex_part r).2 ++ (pack_part r).2
      ++ (machine_part r).2 ++ (name_part r).2)

/-- The reason text `_score_row` actually returns:
`"; ".join(reasons).strip()`. -/
def risk_reason_text (pm pM : ℚ) (r : RiskRow) : String :=
  trimStr (String.intercalate "; " (score_row pm pM r).2)

/-- The guard of the "pack size missing/invalid" +0.20 penalty
(`np.isnan(pack) or pack <= 0`, with the column present). -/
def packMissingFires (r : RiskRow) : Prop :=
  r.pack_present = true ∧ (r.pack_size_g = none ∨ ∃ v, r.pack_size_g = some v ∧ v ≤ 0)

/-- The guard of the "unusual pack size" +0.20 penalty
(pack present, positive, outside the 80–12000 g sane range). -/
def packUnusualFires (r : RiskRow) : Prop :=
  r.pack_present = true ∧ ∃ v, r.pack_size_g = some v ∧ 0 < v ∧ (v < 80 ∨ 12000 < v)

/-- Two strings differ if they differ at some character position, even when
one of them has an opaque suffix. -/
theorem append_ne_of_char (c x d : String) (i : ℕ) (ci di : Char)
    (hc : c.data[i]? = some ci) (hd : d.data[i]? = some di) (hne : ci ≠ di) :
    c ++ x ≠ d := by
  intro h
  apply hne
  have hlen : i < c.data.length := by
    by_contra hlt
    rw [List.getElem?_eq_none (Nat.le_of_not_lt hlt)] at hc
    exact Option.noConfusion hc
  have h1 : (c ++ x).data[i]? = some ci := by
    rw [String.data_append, List.getElem?_append, if_pos hlen]
    exact hc
  rw [h, hd] at h1
  exact (Option.some.inj h1).symm

/-- The pH rule never emits the pack-missing reason. -/
theorem pack_reason_not_in_ph_part (pm pM : ℚ) (r : RiskRow) :
    "pack size missing/invalid" ∉ (ph_part pm pM r).2 := by
  unfold ph_part
  by_cases hp : r.ph_present = true
  · rw [if_pos hp]
    cases hph : r.ph with
    | none =>
      dsimp only
      simp only [List.mem_singleton]
      decide
    | some v =>
      dsimp only
      split_ifs <;> simp only [List.mem_singleton, List.not_mem_nil, not_false_iff]
      · intro h
        exact append_ne_of_char "pH out of range ("
          (ratStr v ++ "; spec " ++ ratStr pm ++ "-" ++ ratStr pM ++ ")")
          "pack size missing/invalid" 1 'H' 'a' rfl rfl (by decide) h.symm
      · intro h
        exact append_ne_of_char "pH near limit (" (ratStr v ++ ")")
          "pack size missing/invalid" 1 'H' 'a' rfl rfl (by decide) h.symm
  · rw [if_neg hp]
    exact List.not_mem_nil _

/-- The pack rule emits the pack-missing reason exactly when its guard fires
(the unusual-range reason, an `"unusual pack size ("`-prefixed string, is a
different string). -/
theorem pack_reason_in_pack_part (r : RiskRow) :
    "pack size missing/invalid" ∈ (pack_part r).2 ↔ packMissingFires r := by
  unfold pack_part packMissingFires
  by_cases hp : r.pack_present = true
  · rw [if_pos hp]
    cases hpk : r.pack_size_g with
    | none =>
      constructor
      · intro _
        exact ⟨hp, Or.inl rfl⟩
      · intro _
        exact List.mem_singleton.mpr rfl
    | some v =>
      dsimp only
      by_cases hv : v ≤ 0
      · rw [if_pos hv]
        constructor
        · intro _
          exact ⟨hp, Or.inr ⟨v, rfl, hv⟩⟩
        · intro _
          exact List.mem_singleton.mpr rfl
      · rw [if_neg hv]
        split_ifs with hr
        · constructor
          · intro h
            exact absurd (List.mem_singleton.mp h).symm
              (append_ne_of_char "unusual pack size (" (ratStr v ++ "g)")
                "pack size missing/invalid" 0 'u' 'p' rfl rfl (by decide))
          · rintro ⟨-, h⟩
            rcases h with h | ⟨w, hw, hw0⟩
            · exact absurd h (by simp)
            · obtain rfl : v = w := Option.some.inj hw
              exact absurd hw0 hv
        · constructor
          · intro h
            exact absurd h (List.not_mem_nil _)
          · rintro ⟨-, h⟩
            rcases h with h | ⟨w, hw, hw0⟩
            · exact absurd h (by simp)
            · obtain rfl : v = w := Option.some.inj hw
              exact absurd hw0 hv
  · rw [if_neg hp]
    constructor
    · intro h
      exact absurd h (List.not_mem_nil _)
    · rintro ⟨h, -⟩
      exact absurd h hp

/-- The complex-formulation, machine and name rules never emit the
pack-missing reason. -/
theorem pack_reason_not_in_other_parts (r : RiskRow) :
    "pack size missing/invalid" ∉ (complex_part r).2
    ∧ "pack size missing/invalid" ∉ (machine_part r).2
    ∧ "pack size missing/invalid" ∉ (name_part r).2 := by
  refine ⟨?_, ?_, ?_⟩
  · unfold complex_part
    split_ifs <;> simp only [List.mem_singleton, List.not_mem_nil, not_false_iff] <;> decide
  · unfold machine_part
    split_ifs <;> simp only [List.mem_singleton, List.not_mem_nil, not_false_iff] <;> decide
  · unfold name_part
    split_ifs <;> simp only [List.mem_singleton, List.not_mem_nil, not_false_iff] <;> decide

/-- Each rule contributes a non-negative score. -/
theorem parts_nonneg (pm pM : ℚ) (r : RiskRow) :
    0 ≤ (ph_part pm pM r).1 ∧ 0 ≤ (complex_part r).1 ∧ 0 ≤ (pack_part r).1
    ∧ 0 ≤ (machine_part r).1 ∧ 0 ≤ (name_part r).1 := by
  refine ⟨?_, ?_, ?_, ?_, ?_⟩
  · unfold ph_part
    by_cases hp : r.ph_present = true
    · rw [if_pos hp]
      cases r.ph with
      | none => norm_num
      | some v =>
        dsimp only
        split_ifs <;> norm_num
    · rw [if_neg hp]
  · unfold complex_part
    split_ifs <;> norm_num
  · unfold pack_part
    by_cases hp : r.pack_present = true
    · rw [if_pos hp]
      cases r.pack_size_g with
      | none => norm_num
      | some v =>
        dsimp only
        split_ifs <;> norm_num
    · rw [if_neg hp]
  · unfold machine_part
    split_ifs <;> norm_num
  · unfold name_part
    split_ifs <;> norm_num

/-- C8.  A job whose expected pH and pack-size fields are both missing scores
at least 0.45 (= 0.25 + 0.20) with both "pH missing" and
"pack size missing/invalid" among the reasons; and the two +0.20 pack-size
penalties are mutually exclusive — for no job do both guards fire, and the
pack-missing reason appears exactly when its guard fires. -/
theorem C8_missing_ph_and_pack :
    (∀ r : RiskRow, r.ph_present = true → r.ph = none →
      r.pack_present = true → r.pack_size_g = none →
        (0.45 : ℚ) ≤ (score_row DEFAULT_PH_MIN DEFAULT_PH_MAX r).1
        ∧ "pH missing" ∈ (score_row DEFAULT_PH_MIN DEFAULT_PH_MAX r).2
        ∧ "pack size missing/invalid" ∈ (score_row DEFAULT_PH_MIN DEFAULT_PH_MAX r).2)
    ∧ (∀ r : RiskRow, ¬ (packMissingFires r ∧ packUnusualFires r))
    ∧ (∀ r : RiskRow,
        "pack size missing/invalid" ∈ (score_row DEFAULT_PH_MIN DEFAULT_PH_MAX r).2
          ↔ packMissingFires r) := by
  refine ⟨fun r h1 h2 h3 h4 => ?_, fun r => ?_, fun r => ?_⟩
  · have hph : ph_part DEFAULT_PH_MIN DEFAULT_PH_MAX r = (0.25, ["pH missing"]) := by
      unfold ph_part; rw [if_pos h1, h2]
    have hpk : pack_part r = (0.20, ["pack size missing/invalid"]) := by
      unfold pack_part; rw [if_pos h3, h4]
    obtain ⟨-, n2, -, n4, n5⟩ := parts_nonneg DEFAULT_PH_MIN DEFAULT_PH_MAX r
    refine ⟨?_, ?_, ?_⟩
    · unfold score_row
      rw [hph, hpk]
      dsimp only
      linarith
    · unfold score_row
      rw [hph, hpk]
      simp
    · unfold score_row
      rw [hph, hpk]
      simp
  · rintro ⟨⟨-, hmiss⟩, ⟨-, v, hv, hpos, -⟩⟩
    rcases hmiss with h | ⟨w, hw, hw0⟩
    · rw [h] at hv; exact Option.noConfusion hv
    · rw [hw] at hv
      exact absurd (Option.some.inj hv ▸ hw0) (not_le.mpr (Option.some.inj hv ▸ hpos))
  · unfold score_row
    simp only [List.mem_append]
    constructor
    · rintro ((((h | h) | h) | h) | h)
      · exact absurd h (pack_reason_not_in_ph_part _ _ r)
      · exact absurd h (pack_reason_not_in_other_parts r).1
      · exact (pack_reason_in_pack_part r).1 h
      · exact absurd h (pack_reason_not_in_other_parts r).2.1
      · exact absurd h (pack_reason_not_in_other_parts r).2.2
    · intro h
      exact Or.inl (Or.inl (Or.inr ((pack_reason_in_pack_part r).2 h)))

/-- Concrete job record for the C8 witness: pH and pack-size columns present
but both values missing. -/
def riskRowScenarioC : RiskRow :=
  { product_name := "Vanilla Yoghurt", flavour_label := "vanilla", machine := "M1",
    ph_present := true, ph := none, pack_present := true, pack_size_g := none,
    machine_present := true }

/-- Witness for C8 at `riskRowScenarioC`. -/
theorem C8_missing_ph_and_pack_witness :
    (0.45 : ℚ) ≤ (score_row DEFAULT_PH_MIN DEFAULT_PH_MAX riskRowScenarioC).1
    ∧ "pH missing" ∈ (score_row DEFAULT_PH_MIN DEFAULT_PH_MAX riskRowScenarioC).2
    ∧ "pack size missing/invalid"
        ∈ (score_row DEFAULT_PH_MIN DEFAULT_PH_MAX riskRowScenarioC).2 :=
  C8_missing_ph_and_pack.1 riskRowScenarioC rfl rfl rfl rfl

/-! ### Sequencer data model (`src/sequencer.py`)

A dataframe row carries the columns `build_sequence_for_machine` reads:
`product_name`, `flavour_label`, `is_plain_yoghurt`, `pack_size_g`,
`machine`. -/

/-- One dataframe row as consumed by the sequencer. -/
structure Row where
  product_name : String
  flavour_label : String
  is_plain_yoghurt : Bool
  pack_size_g : Option ℚ
  machine : String
deriving DecidableEq, Inhabited

/-- `flavour_bucket` from `src/sequencer.py`: strip + lowercase. -/
def flavour_bucket (s : String) : String := ⟨trimData (s.data.map Char.toLower)⟩

/-- `is_granola` from `src/sequencer.py`: name contains `"granola"` or starts
with `"ss "` after lowering. -/
def is_granola (pn : String) : Bool :=
  strContains (lowerStr pn) "granola" || strStarts (lowerStr pn) "ss "

/-- `has_chocolate` from `src/sequencer.py` on the lowered
`name + " " + flavour` text. -/
def has_chocolate (pn fl : String) : Bool :=
  strContains (lowerStr (pn ++ " " ++ fl)) "choc"
  || strContains (lowerStr (pn ++ " " ++ fl)) "chocolate"

/-- `has_nuts_granola_risk` from `src/sequencer.py`. -/
def has_nuts_granola_risk (pn fl : String) : Bool :=
  strContains (lowerStr (pn ++ " " ++ fl)) "granola"
  || strContains (lowerStr (pn ++ " " ++ fl)) "nut"
  || strContains (lowerStr (pn ++ " " ++ fl)) "almond"
  || strContains (lowerStr (pn ++ " " ++ fl)) "hazelnut"

/-- `make_features` from `src/sequencer.py`. -/
def make_features (r : Row) : Feat :=
  { product_name := r.product_name,
    flavour := flavour_bucket r.flavour_label,
    is_plain := r.is_plain_yoghurt,
    is_granola := is_granola r.product_name,
    has_choc := has_chocolate r.product_name r.flavour_label,
    has_nut_risk := has_nuts_granola_risk r.product_name r.flavour_label,
    pack := r.pack_size_g,
    machine := r.machine }

/-- The dedup key of `df_m.drop_duplicates(subset=["product_name",
"flavour_label", "pack_size_g", "machine"])`. -/
def rowKey (r : Row) : String × String × Option ℚ × String :=
  (r.product_name, r.flavour_label, r.pack_size_g, r.machine)

/-- `drop_duplicates(keep="first")`: keep a row iff its key was not seen. -/
def dedupAux (seen : List (String × String × Option ℚ × String)) :
    List Row → List Row
  | [] => []
  | r :: rest =>
    if rowKey r ∈ seen then dedupAux seen rest
    else r :: dedupAux (rowKey r :: seen) rest

/-- The deduplicated job list the sequencer operates on. -/
def dedupRows (rows : List Row) : List Row := dedupAux [] rows

/-! ### Greedy ordering (`build_sequence_for_machine`)

Python's `min(range(n), key=f)` and the explicit best-so-far loop both keep
the first element attaining the running minimum; `remaining` is a CPython set
of small consecutive ints, whose iteration order is ascending, so it is
embedded as a sorted index list.  The while-loop removes one element per
iteration, embedded with fuel initialised to the partition size. -/

/-- Scan `l`, replacing the best index only on a strict improvement
(Python keeps the first minimiser). -/
def pickBetter (f : ℕ → ℤ) : List ℕ → ℕ → ℕ
  | [], best => best
  | j :: rest, best =>
    if f j < f best then pickBetter f rest j else pickBetter f rest best

/-- Python `min(l, key=f)` (`none` on an empty list, where Python raises). -/
def pyMin (f : ℕ → ℤ) : List ℕ → Option ℕ
  | [] => none
  | j :: rest => some (pickBetter f rest j)

/-- The greedy loop's sentinel `best_cost = 1e18`. -/
def sentinel : ℤ := 1000000000000000000

/-- The inner `for j in remaining` loop of the greedy step: `best_i`/`best_cost`
updated on strict improvement. -/
def pickLoop (f : ℕ → ℤ) : List ℕ → Option ℕ → ℤ → Option ℕ
  | [], best, _ => best
  | j :: rest, best, bc =>
    if f j < bc then pickLoop f rest (some j) (f j) else pickLoop f rest best bc

/-- `start_score` from `build_sequence_for_machine`: the cleaning-burden
heuristic (−5 plain, −2 non-granola, −2 no nut risk, −1 no chocolate). -/
def start_score (f : Feat) : ℤ :=
  (if f.is_plain = true then (-5 : ℤ) else 0)
  + (if f.is_granola = false then (-2 : ℤ) else 0)
  + (if f.has_nut_risk = false then (-2 : ℤ) else 0)
  + (if f.has_choc = false then (-1 : ℤ) else 0)

/-- The `while remaining:` greedy loop, fuel-bounded (each iteration removes
the chosen index, so fuel = initial size suffices; the `none` arm is the
unreachable `best_i is None` state). -/
def greedyAux (f : ℕ → ℕ → ℤ) : ℕ → ℕ → List ℕ → List ℕ
  | 0, _, _ => []
  | fuel + 1, last, rem =>
    match pickLoop (f last) rem none sentinel with
    | none => []
    | some j => j :: greedyAux f fuel j (rem.erase j)

/-- The index order produced by `build_sequence_for_machine`'s greedy phase
over the feature list: smart start, then nearest neighbour. -/
def seqOrder (feats : List Feat) : List ℕ :=
  let cost := fun i j =>
    (transition_cost (feats.getD i default) (feats.getD j default) CFG).1
  match pyMin (fun i => start_score (feats.getD i default))
      (List.range feats.length) with
  | none => []
  | some s => s :: greedyAux cost feats.length s ((List.range feats.length).erase s)

/-- Modelled from the spec's ordering description (§4.4 steps 1–2), for the
refinement statement C2: the first index of `l` that minimises `f` over all
of `l` — "minimum …; ties broken by first occurrence in input order". -/
def leastMinBy (f : ℕ → ℤ) (l : List ℕ) : Option ℕ :=
  l.find? (fun j => l.all (fun k => decide (f j ≤ f k)))

/-- Modelled from the spec: repeatedly place the first-occurring remaining
index of minimum transition cost from the last placed one. -/
def specGreedyAux (f : ℕ → ℕ → ℤ) : ℕ → ℕ → List ℕ → List ℕ
  | 0, _, _ => []
  | fuel + 1, last, rem =>
    match leastMinBy (f last) rem with
    | none => []
    | some j => j :: specGreedyAux f fuel j (rem.erase j)

/-- Modelled from the spec: start at the first-occurring index of minimum
cleaning burden, then nearest neighbour with first-occurrence tie-breaks. -/
def specOrder (feats : List Feat) : List ℕ :=
  let cost := fun i j =>
    (transition_cost (feats.getD i default) (feats.getD j default) CFG).1
  match leastMinBy (fun i => start_score (feats.getD i default))
      (List.range feats.length) with
  | none => []
  | some s => s :: specGreedyAux cost feats.length s ((List.range feats.length).erase s)

/-! ### Transition annotation and per-machine assembly -/

/-- An output row: the input row plus the five columns
`build_sequence_for_machine` assigns. -/
structure SeqRow where
  row : Row
  sequence_rank : ℕ
  changeover_required : Bool
  changeover_reason : String
  washdown_required : Bool
  washdown_reason : String
deriving DecidableEq, Inhabited

/-- The column names `build_sequence_for_machine` adds to its output frame
(both the `len(df_jobs) <= 1` short-circuit and the main path assign exactly
these; no `downtime_minutes` column is ever written — the cost minutes
computed in the annotation loop are discarded). -/
def seqAddedColumns : List String :=
  ["sequence_rank", "washdown_required", "washdown_reason",
    "changeover_required", "changeover_reason"]

/-- Row 0 of the annotation loop: rank 1, no changeover (`"START"`), no
washdown. -/
def mkFirstRow (r : Row) : SeqRow := ⟨r, 1, false, "START", false, ""⟩

/-- Row `i > 0` of the annotation loop: recompute the transition from the
previous ordered row; changeover iff the product name differs; washdown flag
and reason from the cost model (minutes are discarded). -/
def mkTransRow (prev r : Row) (k : ℕ) : SeqRow :=
  let t := transition_cost (make_features prev) (make_features r) CFG
  let prodChange := decide (prev.product_name ≠ r.product_name)
  ⟨r, k, prodChange, (if prodChange = true then t.2.2 else "no product change"),
    t.2.1, (if t.2.1 = true then t.2.2 else "")⟩

/-- The `for i in range(1, len(seq_rows))` annotation loop. -/
def annotateAux (prev : Row) : List Row → ℕ → List SeqRow
  | [], _ => []
  | r :: rest, k => mkTransRow prev r k :: annotateAux r rest (k + 1)

/-- Annotation of an ordered partition (ranks are 1-based). -/
def annotate : List Row → List SeqRow
  | [] => []
  | r0 :: rest => mkFirstRow r0 :: annotateAux r0 rest 2

/-- `build_sequence_for_machine` from `src/sequencer.py`: dedup, short-circuit
partitions of ≤ 1 job, otherwise greedy-order the features and annotate. -/
def build_sequence_for_machine (rows : List Row) : List SeqRow :=
  let jobs := dedupRows rows
  if jobs.length ≤ 1 then
    jobs.enum.map (fun p => ⟨p.2, p.1 + 1, false, "", false, ""⟩)
  else
    annotate ((seqOrder (jobs.map make_features)).map (fun i => jobs.getD i default))

/-! ### Per-machine partitioning (`propose_sequence`)

`df.groupby("machine")` sorts the group keys (pandas default `sort=True`,
Python string `<`, i.e. code-point lexicographic) and preserves the input
order inside each group. -/

/-- Code-point lexicographic `≤` on character lists (Python string order). -/
def lexLe : List Char → List Char → Bool
  | [], _ => true
  | _ :: _, [] => false
  | c :: cs, d :: ds =>
    if c.toNat < d.toNat then true
    else if d.toNat < c.toNat then false
    else lexLe cs ds

/-- Python `≤` on strings. -/
def strLe (a b : String) : Prop := lexLe a.data b.data = true

instance : DecidableRel strLe := fun a b => by unfold strLe; infer_instance

/-- The sorted distinct machine keys of `df.groupby("machine")`. -/
def machinesSorted (rows : List Row) : List String :=
  List.insertionSort strLe ((rows.map (fun r => r.machine)).dedup)

/-- `propose_sequence` from `src/sequencer.py`: build each machine partition
independently (in sorted machine order) and concatenate. -/
def propose_sequence (rows : List Row) : List SeqRow :=
  ((machinesSorted rows).map
    (fun m => build_sequence_for_machine (rows.filter (fun r => r.machine == m)))).flatten

/-! ### C2: the greedy order refines the spec's description -/

/-- `pickBetter` returns an element of `b :: l` that is minimal over `b :: l`
and is strictly smaller than everything placed before it in the scan. -/
theorem pickBetter_spec (f : ℕ → ℤ) :
    ∀ (l : List ℕ) (b : ℕ),
      (∀ k ∈ b :: l, f (pickBetter f l b) ≤ f k)
      ∧ ∃ p q, b :: l = p ++ pickBetter f l b :: q
          ∧ ∀ a ∈ p, f (pickBetter f l b) < f a := by
  intro l
  induction l with
  | nil =>
    intro b
    refine ⟨?_, [], [], rfl, by simp⟩
    intro k hk
    rw [List.mem_singleton.mp hk]
    exact le_refl _
  | cons j t ih =>
    intro b
    by_cases hj : f j < f b
    · have hpb : pickBetter f (j :: t) b = pickBetter f t j := by
        rw [pickBetter, if_pos hj]
      obtain ⟨hbound, p, q, hdec, hstrict⟩ := ih j
      rw [hpb]
      constructor
      · intro k hk
        rcases List.mem_cons.mp hk with rfl | hk
        · exact le_of_lt (lt_of_le_of_lt (hbound j (List.mem_cons_self j t)) hj)
        · exact hbound k hk
      · refine ⟨b :: p, q, by rw [List.cons_append, ← hdec], ?_⟩
        intro a ha
        rcases List.mem_cons.mp ha with rfl | ha
        · exact lt_of_le_of_lt (hbound j (List.mem_cons_self j t)) hj
        · exact hstrict a ha
    · have hbj : f b ≤ f j := not_lt.mp hj
      have hpb : pickBetter f (j :: t) b = pickBetter f t b := by
        rw [pickBetter, if_neg hj]
      obtain ⟨hbound, p, q, hdec, hstrict⟩ := ih b
      rw [hpb]
      have hcle : f (pickBetter f t b) ≤ f b := hbound b (List.mem_cons_self b t)
      constructor
      · intro k hk
        rcases List.mem_cons.mp hk with rfl | hk
        · exact hcle
        rcases List.mem_cons.mp hk with rfl | hk
        · exact le_trans hcle hbj
        · exact hbound k (List.mem_cons_of_mem b hk)
      · cases p with
        | nil =>
          have hcb : b = pickBetter f t b := (List.cons.injEq _ _ _ _).mp hdec |>.1
          refine ⟨[], j :: t, ?_, by simp⟩
          rw [List.nil_append, ← hcb]
        | cons b' p' =>
          obtain ⟨hb', ht⟩ := (List.cons.injEq _ _ _ _).mp hdec
          simp only [List.append_eq] at ht
          have hcb : f (pickBetter f t b) < f b := by
            have h0 := hstrict b' (List.mem_cons_self b' p')
            rw [← hb'] at h0
            exact h0
          refine ⟨b :: j :: p', q, by rw [List.cons_append, List.cons_append, ← ht], ?_⟩
          intro a ha
          rcases List.mem_cons.mp ha with rfl | ha
          · exact hcb
          rcases List.mem_cons.mp ha with rfl | ha
          · exact lt_of_lt_of_le hcb hbj
          · exact hstrict a (List.mem_cons_of_mem b' ha)

/-- `find?` returns the head of the suffix after a prefix of failures. -/
theorem find?_first {α : Type} (pr : α → Bool) :
    ∀ (p : List α) (c : α) (q : List α), (∀ a ∈ p, pr a = false) → pr c = true →
      (p ++ c :: q).find? pr = some c := by
  intro p
  induction p with
  | nil =>
    intro c q _ hc
    rw [List.nil_append, List.find?_cons_of_pos _ hc]
  | cons a p' ih =>
    intro c q hp hc
    rw [List.cons_append, List.find?_cons_of_neg, ih c q (fun x hx => hp x (List.mem_cons_of_mem a hx)) hc]
    rw [hp a (List.mem_cons_self a p')]
    exact Bool.false_ne_true

/-- Python's `min` (first minimiser kept) agrees with the spec's
"minimum, ties broken by first occurrence". -/
theorem pyMin_eq_leastMinBy (f : ℕ → ℤ) (l : List ℕ) :
    pyMin f l = leastMinBy f l := by
  cases l with
  | nil => rfl
  | cons b t =>
    obtain ⟨hbound, p, q, hdec, hstrict⟩ := pickBetter_spec f t b
    show some (pickBetter f t b) = leastMinBy f (b :: t)
    unfold leastMinBy
    rw [hdec]
    rw [find?_first _ p _ q ?_ ?_]
    · intro a ha
      rw [List.all_eq_false]
      refine ⟨pickBetter f t b, ?_, ?_⟩
      · exact List.mem_append_right p (List.mem_cons_self _ q)
      · simp only [decide_eq_true_eq, not_le]
        exact hstrict a ha
    · rw [List.all_eq_true]
      intro k hk
      rw [← hdec] at hk
      exact decide_eq_true (hbound k hk)

/-- The best-so-far loop started on an already-seen element `b`. -/
theorem pickLoop_some (f : ℕ → ℤ) :
    ∀ (l : List ℕ) (b : ℕ), pickLoop f l (some b) (f b) = some (pickBetter f l b) := by
  intro l
  induction l with
  | nil => intro b; rfl
  | cons j t ih =>
    intro b
    unfold pickLoop pickBetter
    by_cases hj : f j < f b
    · rw [if_pos hj, if_pos hj, ih j]
    · rw [if_neg hj, if_neg hj, ih b]

/-- Started from the `1e18` sentinel the loop computes Python's `min`,
provided every candidate is below the sentinel. -/
theorem pickLoop_sentinel (f : ℕ → ℤ) (l : List ℕ) (C : ℤ)
    (h : ∀ j ∈ l, f j < C) : pickLoop f l none C = pyMin f l := by
  cases l with
  | nil => rfl
  | cons j t =>
    unfold pickLoop pyMin
    rw [if_pos (h j (List.mem_cons_self j t))]
    exact pickLoop_some f t j

/-- The implementation's greedy loop equals the spec's greedy loop whenever
all costs stay below the sentinel. -/
theorem greedyAux_eq_spec (f : ℕ → ℕ → ℤ) (hf : ∀ i j, f i j < sentinel) :
    ∀ (fuel last : ℕ) (rem : List ℕ),
      greedyAux f fuel last rem = specGreedyAux f fuel last rem := by
  intro fuel
  induction fuel with
  | zero => intro last rem; rfl
  | succ n ih =>
    intro last rem
    unfold greedyAux specGreedyAux
    rw [pickLoop_sentinel (f last) rem sentinel (fun j _ => hf last j),
      pyMin_eq_leastMinBy]
    cases leastMinBy (f last) rem with
    | none => rfl
    | some j =>
      dsimp only
      rw [ih j (rem.erase j)]

/-- C2.  On a machine partition with more than one deduplicated job, the
order produced by `build_sequence_for_machine`'s greedy phase (smart start,
then repeated nearest neighbour, first-minimiser kept at every scan) equals
the spec's description: first the earliest job of minimum cleaning burden,
then repeatedly the earliest remaining job of minimum transition cost from
the last placed one — deterministic, ties by first occurrence in input
order. -/
theorem C2_greedy_order_refines_spec (rows : List Row)
    (h : 1 < (dedupRows rows).length) :
    seqOrder ((dedupRows rows).map make_features)
      = specOrder ((dedupRows rows).map make_features) := by
  unfold seqOrder specOrder
  rw [pyMin_eq_leastMinBy]
  dsimp only
  cases leastMinBy (fun i =>
      start_score (((dedupRows rows).map make_features).getD i default))
      (List.range ((dedupRows rows).map make_features).length) with
  | none => rfl
  | some s =>
    dsimp only
    rw [greedyAux_eq_spec _ (fun i j => transition_cost_lt_sentinel _ _)]

/-- Two-job concrete partition for the C2 witness (distinct dedup keys). -/
def rowChocM1 : Row :=
  { product_name := "Choc Pot 150g", flavour_label := "chocolate",
    is_plain_yoghurt := false, pack_size_g := none, machine := "M1" }

/-- Second concrete job of the C2 witness partition. -/
def rowPlainM1 : Row :=
  { product_name := "Natural 150g", flavour_label := "plain",
    is_plain_yoghurt := true, pack_size_g := none, machine := "M1" }

/-- Witness for C2 at the two-job partition `[rowChocM1, rowPlainM1]`. -/
theorem C2_greedy_order_refines_spec_witness :
    1 < (dedupRows [rowChocM1, rowPlainM1]).length
    ∧ seqOrder ((dedupRows [rowChocM1, rowPlainM1]).map make_features)
        = specOrder ((dedupRows [rowChocM1, rowPlainM1]).map make_features) :=
  ⟨by decide, C2_greedy_order_refines_spec [rowChocM1, rowPlainM1] (by decide)⟩

/-! ### Structural lemmas on the greedy order, dedup and annotation -/

/-- The scan's result is an element of the scanned list (with its start). -/
theorem pickBetter_mem (f : ℕ → ℤ) (l : List ℕ) (b : ℕ) :
    pickBetter f l b ∈ b :: l := by
  obtain ⟨-, p, q, hdec, -⟩ := pickBetter_spec f l b
  rw [hdec]
  exact List.mem_append_right p (List.mem_cons_self _ q)

/-- A successful best-so-far loop picks a scanned element (or keeps its
accumulator). -/
theorem pickLoop_mem (f : ℕ → ℤ) :
    ∀ (l : List ℕ) (acc : Option ℕ) (C : ℤ) (j : ℕ),
      pickLoop f l acc C = some j → j ∈ l ∨ acc = some j := by
  intro l
  induction l with
  | nil =>
    intro acc C j h
    exact Or.inr h
  | cons x t ih =>
    intro acc C j h
    unfold pickLoop at h
    by_cases hx : f x < C
    · rw [if_pos hx] at h
      rcases ih (some x) (f x) j h with hm | he
      · exact Or.inl (List.mem_cons_of_mem x hm)
      · exact Or.inl (List.mem_cons.mpr (Or.inl (Option.some.inj he).symm))
    · rw [if_neg hx] at h
      rcases ih acc C j h with hm | he
      · exact Or.inl (List.mem_cons_of_mem x hm)
      · exact Or.inr he

/-- The greedy loop consumes its whole remaining set when all costs are below
the sentinel and the fuel covers the remaining size. -/
theorem greedyAux_length (f : ℕ → ℕ → ℤ) (hf : ∀ i j, f i j < sentinel) :
    ∀ (fuel : ℕ) (rem : List ℕ) (last : ℕ), rem.length ≤ fuel →
      (greedyAux f fuel last rem).length = rem.length := by
  intro fuel
  induction fuel with
  | zero =>
    intro rem last h
    rw [List.length_eq_zero.mp (Nat.le_zero.mp h)]
    rfl
  | succ n ih =>
    intro rem last h
    unfold greedyAux
    cases hrem : rem with
    | nil => rfl
    | cons x t =>
      rw [pickLoop_sentinel _ _ _ (fun j _ => hf last j)]
      dsimp only [pyMin]
      have hj : pickBetter (f last) t x ∈ x :: t := pickBetter_mem (f last) t x
      have herase : ((x :: t).erase (pickBetter (f last) t x)).length = t.length := by
        rw [List.length_erase_of_mem hj]
        rfl
      rw [List.length_cons, ih _ (pickBetter (f last) t x) (by
        rw [herase]
        have := hrem ▸ h
        rw [List.length_cons] at this
        exact Nat.le_of_succ_le_succ this), herase]
      rfl

/-- Every index emitted by the greedy loop comes from its remaining set. -/
theorem greedyAux_subset (f : ℕ → ℕ → ℤ) :
    ∀ (fuel last : ℕ) (rem : List ℕ), ∀ x ∈ greedyAux f fuel last rem, x ∈ rem := by
  intro fuel
  induction fuel with
  | zero =>
    intro last rem x hx
    exact absurd hx (List.not_mem_nil x)
  | succ n ih =>
    intro last rem x hx
    unfold greedyAux at hx
    cases hpl : pickLoop (f last) rem none sentinel with
    | none =>
      rw [hpl] at hx
      exact absurd hx (List.not_mem_nil x)
    | some j =>
      rw [hpl] at hx
      have hj : j ∈ rem := by
        rcases pickLoop_mem (f last) rem none sentinel j hpl with hm | he
        · exact hm
        · exact Option.noConfusion he
      rcases List.mem_cons.mp hx with rfl | hx
      · exact hj
      · exact List.erase_subset _ _ (ih j (rem.erase j) x hx)

/-- On a non-empty feature list the greedy order is a full permutation-sized
index list. -/
theorem seqOrder_length (feats : List Feat) (h : 1 ≤ feats.length) :
    (seqOrder feats).length = feats.length := by
  unfold seqOrder
  dsimp only
  cases hr : List.range feats.length with
  | nil =>
    exfalso
    have h0 : feats.length = 0 := by
      have := congrArg List.length hr
      simpa using this
    omega
  | cons r0 rrest =>
    dsimp only [pyMin]
    rw [List.length_cons]
    have hs : pickBetter (fun i => start_score (feats.getD i default)) rrest r0
        ∈ r0 :: rrest := pickBetter_mem _ rrest r0
    have hlen : (r0 :: rrest).length = feats.length := by
      have := congrArg List.length hr
      rw [List.length_range] at this
      exact this.symm
    have herase : ((r0 :: rrest).erase
        (pickBetter (fun i => start_score (feats.getD i default)) rrest r0)).length
          = feats.length - 1 := by
      rw [List.length_erase_of_mem hs, hlen]
    rw [greedyAux_length _ (fun i j => transition_cost_lt_sentinel _ _) _ _ _ (by
      rw [herase]
      omega), herase]
    omega

/-- Every index in the greedy order is in range. -/
theorem seqOrder_mem (feats : List Feat) :
    ∀ i ∈ seqOrder feats, i < feats.length := by
  intro i hi
  unfold seqOrder at hi
  dsimp only at hi
  cases hr : List.range feats.length with
  | nil =>
    rw [hr] at hi
    exact absurd hi (List.not_mem_nil i)
  | cons r0 rrest =>
    rw [hr] at hi
    dsimp only [pyMin] at hi
    rcases List.mem_cons.mp hi with rfl | hi
    · exact List.mem_range.mp (hr ▸ pickBetter_mem _ rrest r0)
    · have := greedyAux_subset _ _ _ _ i hi
      exact List.mem_range.mp (hr ▸ List.erase_subset _ _ this)

/-- Deduplication only drops rows. -/
theorem dedupAux_subset :
    ∀ (rows : List Row) (seen : List (String × String × Option ℚ × String)),
      ∀ r ∈ dedupAux seen rows, r ∈ rows := by
  intro rows
  induction rows with
  | nil =>
    intro seen r hr
    exact absurd hr (List.not_mem_nil r)
  | cons x t ih =>
    intro seen r hr
    unfold dedupAux at hr
    by_cases hk : rowKey x ∈ seen
    · rw [if_pos hk] at hr
      exact List.mem_cons_of_mem x (ih seen r hr)
    · rw [if_neg hk] at hr
      rcases List.mem_cons.mp hr with rfl | hr
      · exact List.mem_cons_self _ _
      · exact List.mem_cons_of_mem x (ih _ r hr)

/-- Deduplication of a non-empty list keeps its first row. -/
theorem dedupRows_cons (r : Row) (rest : List Row) :
    dedupRows (r :: rest) = r :: dedupAux [rowKey r] rest := by
  show dedupAux [] (r :: rest) = _
  rw [dedupAux, if_neg (List.not_mem_nil _)]

/-- The annotation loop emits one output row per input row. -/
theorem annotateAux_length :
    ∀ (l : List Row) (prev : Row) (k : ℕ), (annotateAux prev l k).length = l.length := by
  intro l
  induction l with
  | nil => intro prev k; rfl
  | cons r rest ih =>
    intro prev k
    unfold annotateAux
    rw [List.length_cons, List.length_cons, ih r (k + 1)]

/-- `annotate` preserves length. -/
theorem annotate_length (l : List Row) : (annotate l).length = l.length := by
  cases l with
  | nil => rfl
  | cons r0 rest =>
    unfold annotate
    rw [List.length_cons, List.length_cons, annotateAux_length rest r0 2]

/-- Indexing into the annotation loop: output `i` compares input rows `i` and
`i+1` of the extended list and carries rank `k + i`. -/
theorem annotateAux_getElem? :
    ∀ (l : List Row) (prev : Row) (k i : ℕ), i < l.length →
      (annotateAux prev l k)[i]? =
        some (mkTransRow ((prev :: l).getD i default) (l.getD i default) (k + i)) := by
  intro l
  induction l with
  | nil =>
    intro prev k i h
    exact absurd h (Nat.not_lt_zero i)
  | cons r rest ih =>
    intro prev k i h
    cases i with
    | zero =>
      unfold annotateAux
      rw [List.getElem?_cons_zero]
      simp [List.getD_cons_zero]
    | succ i' =>
      unfold annotateAux
      rw [List.getElem?_cons_succ, ih r (k + 1) i' (by
        rw [List.length_cons] at h
        exact Nat.lt_of_succ_lt_succ h)]
      have hk : k + 1 + i' = k + (i' + 1) := by omega
      rw [hk]
      simp [List.getD_cons_succ]

/-- Indexing into `annotate` at a positive position. -/
theorem annotate_getElem?_succ (l : List Row) (i : ℕ) (h : i + 1 < l.length) :
    (annotate l)[i + 1]? =
      some (mkTransRow (l.getD i default) (l.getD (i + 1) default) (i + 2)) := by
  cases l with
  | nil => exact absurd h (Nat.not_lt_zero _)
  | cons r0 rest =>
    unfold annotate
    rw [List.getElem?_cons_succ, annotateAux_getElem? rest r0 2 i (by
      rw [List.length_cons] at h
      exact Nat.lt_of_succ_lt_succ h)]
    have h2 : (2 : ℕ) + i = i + 2 := by omega
    rw [h2]
    simp [List.getD_cons_succ]

/-- The annotated output carries the ordered input rows unchanged. -/
theorem annotate_getD_row (l : List Row) (i : ℕ) (h : i < l.length) :
    ((annotate l).getD i default).row = l.getD i default := by
  cases l with
  | nil => exact absurd h (Nat.not_lt_zero _)
  | cons r0 rest =>
    cases i with
    | zero => rfl
    | succ i' =>
      rw [List.getD_eq_getElem?_getD, annotate_getElem?_succ (r0 :: rest) i' h]
      rfl

/-- `build_sequence_for_machine` emits exactly one output row per
deduplicated input row (nothing is dropped and nothing is rejected). -/
theorem build_length (rows : List Row) :
    (build_sequence_for_machine rows).length = (dedupRows rows).length := by
  unfold build_sequence_for_machine
  dsimp only
  by_cases hle : (dedupRows rows).length ≤ 1
  · rw [if_pos hle, List.length_map, List.enum_length]
  · rw [if_neg hle, annotate_length, List.length_map,
      seqOrder_length _ (by rw [List.length_map]; omega), List.length_map]

/-- C5.  For every non-empty machine partition, the first sequenced job has
`sequence_rank = 1`, `changeover_required = false` and
`washdown_required = false`; a single-(deduplicated-)job partition
short-circuits to rank 1 with no changeover and no washdown.  (The output
carries no `downtime_minutes` at all — see the C5 counterexample.) -/
theorem C5_first_job_invariant (rows : List Row) (h : rows ≠ []) :
    (∃ s, (build_sequence_for_machine rows).head? = some s
      ∧ s.sequence_rank = 1 ∧ s.changeover_required = false
      ∧ s.washdown_required = false)
    ∧ ((dedupRows rows).length = 1 →
        ∃ r, dedupRows rows = [r]
          ∧ build_sequence_for_machine rows = [⟨r, 1, false, "", false, ""⟩]) := by
  obtain ⟨r0, rest, hrows⟩ : ∃ r0 rest, rows = r0 :: rest := by
    cases rows with
    | nil => exact absurd rfl h
    | cons a t => exact ⟨a, t, rfl⟩
  have hne : dedupRows rows ≠ [] := by
    rw [hrows, dedupRows_cons]
    exact List.cons_ne_nil _ _
  constructor
  · unfold build_sequence_for_machine
    dsimp only
    by_cases hle : (dedupRows rows).length ≤ 1
    · rw [if_pos hle]
      obtain ⟨x, hx⟩ : ∃ x, dedupRows rows = [x] := by
        cases hjobs : dedupRows rows with
        | nil => exact absurd hjobs hne
        | cons a t =>
          cases t with
          | nil => exact ⟨a, rfl⟩
          | cons b t' =>
            rw [hjobs] at hle
            simp at hle
      rw [hx]
      exact ⟨⟨x, 1, false, "", false, ""⟩, rfl, rfl, rfl, rfl⟩
    · rw [if_neg hle]
      have hfl : 1 ≤ ((dedupRows rows).map make_features).length := by
        rw [List.length_map]
        omega
      have holen : ((seqOrder ((dedupRows rows).map make_features)).map
          (fun i => (dedupRows rows).getD i default)).length
            = (dedupRows rows).length := by
        rw [List.length_map, seqOrder_length _ hfl, List.length_map]
      cases hord : (seqOrder ((dedupRows rows).map make_features)).map
          (fun i => (dedupRows rows).getD i default) with
      | nil =>
        exfalso
        rw [hord] at holen
        simp at holen
        omega
      | cons o0 os =>
        exact ⟨mkFirstRow o0, rfl, rfl, rfl, rfl⟩
  · intro hlen1
    unfold build_sequence_for_machine
    dsimp only
    rw [if_pos (by omega)]
    obtain ⟨x, hx⟩ : ∃ x, dedupRows rows = [x] := by
      cases hjobs : dedupRows rows with
      | nil =>
        rw [hjobs] at hlen1
        simp at hlen1
      | cons a t =>
        cases t with
        | nil => exact ⟨a, rfl⟩
        | cons b t' =>
          rw [hjobs] at hlen1
          simp at hlen1
    refine ⟨x, hx, ?_⟩
    rw [hx]
    rfl

/-- Witness for C5 at the single-job partition `[rowPlainM1]`. -/
theorem C5_first_job_invariant_witness :
    (∃ s, (build_sequence_for_machine [rowPlainM1]).head? = some s
      ∧ s.sequence_rank = 1 ∧ s.changeover_required = false
      ∧ s.washdown_required = false)
    ∧ ((dedupRows [rowPlainM1]).length = 1 →
        ∃ r, dedupRows [rowPlainM1] = [r]
          ∧ build_sequence_for_machine [rowPlainM1] = [⟨r, 1, false, "", false, ""⟩]) :=
  C5_first_job_invariant [rowPlainM1] (by decide)

/-- C6.  For every sequenced partition and position `i > 0`, the annotation
sets `changeover_required` iff the product name differs from the previous
ordered row, and takes `washdown_required` (and the washdown reason, emitted
when the flag is set) directly from the Transition Cost Model for the
transition from row `i−1` to row `i`.  The model's minutes are discarded —
no downtime field exists (see the C6 counterexample). -/
theorem C6_flags_from_cost_model (rows : List Row) (i : ℕ)
    (h : i + 1 < (dedupRows rows).length) :
    ((build_sequence_for_machine rows).getD (i + 1) default).changeover_required
        = decide (((build_sequence_for_machine rows).getD i default).row.product_name
            ≠ ((build_sequence_for_machine rows).getD (i + 1) default).row.product_name)
    ∧ ((build_sequence_for_machine rows).getD (i + 1) default).washdown_required
        = (transition_cost
            (make_features ((build_sequence_for_machine rows).getD i default).row)
            (make_features ((build_sequence_for_machine rows).getD (i + 1) default).row)
            CFG).2.1
    ∧ ((build_sequence_for_machine rows).getD (i + 1) default).washdown_reason
        = (if (transition_cost
              (make_features ((build_sequence_for_machine rows).getD i default).row)
              (make_features ((build_sequence_for_machine rows).getD (i + 1) default).row)
              CFG).2.1 = true
          then (transition_cost
              (make_features ((build_sequence_for_machine rows).getD i default).row)
              (make_features ((build_sequence_for_machine rows).getD (i + 1) default).row)
              CFG).2.2
          else "") := by
  have hgt : ¬ (dedupRows rows).length ≤ 1 := by omega
  have hbuild : build_sequence_for_machine rows
      = annotate ((seqOrder ((dedupRows rows).map make_features)).map
          (fun j => (dedupRows rows).getD j default)) := by
    unfold build_sequence_for_machine
    dsimp only
    rw [if_neg hgt]
  have holen : ((seqOrder ((dedupRows rows).map make_features)).map
      (fun j => (dedupRows rows).getD j default)).length
        = (dedupRows rows).length := by
    rw [List.length_map, seqOrder_length _ (by rw [List.length_map]; omega),
      List.length_map]
  have hi1 : i + 1 < ((seqOrder ((dedupRows rows).map make_features)).map
      (fun j => (dedupRows rows).getD j default)).length := by
    rw [holen]
    exact h
  have hi0 : i < ((seqOrder ((dedupRows rows).map make_features)).map
      (fun j => (dedupRows rows).getD j default)).length := by
    omega
  rw [hbuild]
  rw [show ((annotate ((seqOrder ((dedupRows rows).map make_features)).map
      (fun j => (dedupRows rows).getD j default))).getD (i + 1) default)
      = mkTransRow (((seqOrder ((dedupRows rows).map make_features)).map
          (fun j => (dedupRows rows).getD j default)).getD i default)
        (((seqOrder ((dedupRows rows).map make_features)).map
          (fun j => (dedupRows rows).getD j default)).getD (i + 1) default)
        (i + 2) from by
    rw [List.getD_eq_getElem?_getD, annotate_getElem?_succ _ i hi1]
    rfl]
  rw [annotate_getD_row _ i hi0]
  refine ⟨?_, ?_, ?_⟩ <;> simp [mkTransRow]

/-- Witness for C6 at the two-job partition `[rowChocM1, rowPlainM1]`, i = 0. -/
theorem C6_flags_from_cost_model_witness :
    0 + 1 < (dedupRows [rowChocM1, rowPlainM1]).length
    ∧ (((build_sequence_for_machine [rowChocM1, rowPlainM1]).getD (0 + 1)
          default).changeover_required
        = decide (((build_sequence_for_machine [rowChocM1, rowPlainM1]).getD 0
              default).row.product_name
            ≠ ((build_sequence_for_machine [rowChocM1, rowPlainM1]).getD (0 + 1)
              default).row.product_name)
      ∧ ((build_sequence_for_machine [rowChocM1, rowPlainM1]).getD (0 + 1)
            default).washdown_required
        = (transition_cost
            (make_features ((build_sequence_for_machine [rowChocM1, rowPlainM1]).getD 0
              default).row)
            (make_features ((build_sequence_for_machine [rowChocM1, rowPlainM1]).getD (0 + 1)
              default).row) CFG).2.1
      ∧ ((build_sequence_for_machine [rowChocM1, rowPlainM1]).getD (0 + 1)
            default).washdown_reason
        = (if (transition_cost
              (make_features ((build_sequence_for_machine [rowChocM1, rowPlainM1]).getD 0
                default).row)
              (make_features ((build_sequence_for_machine [rowChocM1, rowPlainM1]).getD (0 + 1)
                default).row) CFG).2.1 = true
          then (transition_cost
              (make_features ((build_sequence_for_machine [rowChocM1, rowPlainM1]).getD 0
                default).row)
              (make_features ((build_sequence_for_machine [rowChocM1, rowPlainM1]).getD (0 + 1)
                default).row) CFG).2.2
          else "")) :=
  ⟨by decide, C6_flags_from_cost_model [rowChocM1, rowPlainM1] 0 (by decide)⟩

/-- C7.  An empty `product_name` is not rejected anywhere in the core: the
risk scorer adds +0.60 with reason "product name missing" and returns
normally, and the sequencer emits one output row per deduplicated input row
for every batch — there is no rejection path (and upstream `normalize_data`
silently drops empty-name rows instead). -/
theorem C7_no_batch_rejection :
    (∀ r : RiskRow, r.product_name = "" →
      (0.6 : ℚ) ≤ (score_row DEFAULT_PH_MIN DEFAULT_PH_MAX r).1
      ∧ "product name missing" ∈ (score_row DEFAULT_PH_MIN DEFAULT_PH_MAX r).2)
    ∧ (∀ rows : List Row,
        (build_sequence_for_machine rows).length = (dedupRows rows).length) := by
  constructor
  · intro r hr
    have hname : name_part r = (0.60, ["product name missing"]) := by
      unfold name_part
      rw [if_pos (by rw [hr]; decide)]
    obtain ⟨n1, n2, n3, n4, -⟩ := parts_nonneg DEFAULT_PH_MIN DEFAULT_PH_MAX r
    constructor
    · unfold score_row
      rw [hname]
      dsimp only
      linarith
    · unfold score_row
      rw [hname]
      simp
  · exact build_length

/-- A batch row with an empty product name (for C7). -/
def rowEmptyName : Row :=
  { product_name := "", flavour_label := "", is_plain_yoghurt := false,
    pack_size_g := none, machine := "M1" }

/-- A risk-scorer record with an empty product name (for C7). -/
def riskRowEmptyName : RiskRow :=
  { product_name := "", flavour_label := "", machine := "M1",
    ph_present := false, ph := none, pack_present := false, pack_size_g := none,
    machine_present := true }

/-- Witness for C7 at `riskRowEmptyName` and the batch `[rowEmptyName]`. -/
theorem C7_no_batch_rejection_witness :
    ((0.6 : ℚ) ≤ (score_row DEFAULT_PH_MIN DEFAULT_PH_MAX riskRowEmptyName).1
      ∧ "product name missing"
          ∈ (score_row DEFAULT_PH_MIN DEFAULT_PH_MAX riskRowEmptyName).2)
    ∧ (build_sequence_for_machine [rowEmptyName]).length
        = (dedupRows [rowEmptyName]).length :=
  ⟨C7_no_batch_rejection.1 riskRowEmptyName rfl, C7_no_batch_rejection.2 [rowEmptyName]⟩

/-- C7 counterexample: a batch containing an empty-name record is processed,
not rejected — the sequencer emits the record at rank 1 and the risk scorer
returns a normal score/reason pair. -/
theorem C7_counterexample :
    propose_sequence [rowEmptyName] = [⟨rowEmptyName, 1, false, "", false, ""⟩]
    ∧ score_row DEFAULT_PH_MIN DEFAULT_PH_MAX riskRowEmptyName
        = (0.6, ["product name missing"]) := by
  constructor
  · decide
  · have h1 : ph_part DEFAULT_PH_MIN DEFAULT_PH_MAX riskRowEmptyName = (0, []) := by
      unfold ph_part
      rw [if_neg (by decide)]
    have h2 : complex_part riskRowEmptyName = (0, []) := by
      unfold complex_part
      rw [if_neg (by decide)]
    have h3 : pack_part riskRowEmptyName = (0, []) := by
      unfold pack_part
      rw [if_neg (by decide)]
    have h4 : machine_part riskRowEmptyName = (0, []) := by
      unfold machine_part
      rw [if_neg (by decide)]
    have h5 : name_part riskRowEmptyName = (0.60, ["product name missing"]) := by
      unfold name_part
      rw [if_pos (by decide)]
    unfold score_row
    rw [h1, h2, h3, h4, h5]
    norm_num

/-- A single-job M2 partition (for the C5 counterexample). -/
def rowSingleM2 : Row :=
  { product_name := "Vanilla 450g", flavour_label := "vanilla",
    is_plain_yoghurt := false, pack_size_g := some 450, machine := "M2" }

/-- C5 counterexample: the sequencer writes no `downtime_minutes` column at
all — the short-circuit single-job output consists of exactly the rank and
flag/reason columns, so "downtime_minutes equal to 0" has no referent. -/
theorem C5_counterexample :
    "downtime_minutes" ∉ seqAddedColumns
    ∧ build_sequence_for_machine [rowSingleM2]
        = [⟨rowSingleM2, 1, false, "", false, ""⟩] := by
  decide

/-- Two SS-granola M3 rows (for the C6 counterexample). -/
def rowSSMango : Row :=
  { product_name := "SS Mango", flavour_label := "", is_plain_yoghurt := false,
    pack_size_g := none, machine := "M3" }

/-- Second SS-granola M3 row of the C6 counterexample. -/
def rowSSBerry : Row :=
  { product_name := "SS Berry", flavour_label := "", is_plain_yoghurt := false,
    pack_size_g := none, machine := "M3" }

/-- C6 counterexample: the cost model returns 35 minutes for this M3
transition and the annotation records the washdown flag, yet the minutes are
discarded — no `downtime_minutes` column exists in the output. -/
theorem C6_counterexample :
    (transition_cost (make_features rowSSMango) (make_features rowSSBerry) CFG).1 = 35
    ∧ (build_sequence_for_machine [rowSSMango, rowSSBerry]).map
        (fun s => s.washdown_required) = [false, true]
    ∧ "downtime_minutes" ∉ seqAddedColumns := by
  decide

/-! ### C4: partition order and the UNKNOWN partition -/

/-- The machine labels of the data model (§3 of the spec). -/
def machineEnum : List String := ["BUCKET_LINE", "M1", "M2", "M3", "UNKNOWN"]

/-- Totality of the code-point lexicographic order. -/
theorem lexLe_total : ∀ l1 l2 : List Char, lexLe l1 l2 = true ∨ lexLe l2 l1 = true := by
  intro l1
  induction l1 with
  | nil => intro l2; exact Or.inl rfl
  | cons c cs ih =>
    intro l2
    cases l2 with
    | nil => exact Or.inr rfl
    | cons d ds =>
      unfold lexLe
      rcases Nat.lt_trichotomy c.toNat d.toNat with h | h | h
      · left
        rw [if_pos h]
      · simp only [if_neg (show ¬ c.toNat < d.toNat by omega),
          if_neg (show ¬ d.toNat < c.toNat by omega)]
        exact ih ds
      · right
        rw [if_pos h]

/-- Transitivity of the code-point lexicographic order. -/
theorem lexLe_trans :
    ∀ l1 l2 l3 : List Char,
      lexLe l1 l2 = true → lexLe l2 l3 = true → lexLe l1 l3 = true := by
  intro l1
  induction l1 with
  | nil => intro l2 l3 _ _; rfl
  | cons c cs ih =>
    intro l2 l3 h12 h23
    cases l2 with
    | nil => exact absurd h12 (by simp [lexLe])
    | cons d ds =>
      cases l3 with
      | nil => exact absurd h23 (by simp [lexLe])
      | cons e es =>
        unfold lexLe at h12 h23 ⊢
        by_cases hcd : c.toNat < d.toNat
        · by_cases hde : d.toNat < e.toNat
          · rw [if_pos (by omega)]
          · by_cases hed : e.toNat < d.toNat
            · rw [if_neg hde, if_pos hed] at h23
              exact absurd h23 Bool.false_ne_true
            · rw [if_pos (by omega)]
        · by_cases hdc : d.toNat < c.toNat
          · rw [if_neg hcd, if_pos hdc] at h12
            exact absurd h12 Bool.false_ne_true
          · rw [if_neg hcd, if_neg hdc] at h12
            by_cases hde : d.toNat < e.toNat
            · rw [if_pos (by omega)]
            · by_cases hed : e.toNat < d.toNat
              · rw [if_neg hde, if_pos hed] at h23
                exact absurd h23 Bool.false_ne_true
              · rw [if_neg hde, if_neg hed] at h23
                rw [if_neg (by omega), if_neg (by omega)]
                exact ih ds es h12 h23

instance : IsTotal String strLe := ⟨fun a b => lexLe_total a.data b.data⟩

instance : IsTrans String strLe :=
  ⟨fun a b c hab hbc => lexLe_trans a.data b.data c.data hab hbc⟩

/-- A machine label that is ≥ `"UNKNOWN"` in Python string order and belongs
to the data model's label set is `"UNKNOWN"` itself. -/
theorem eq_unknown_of_le (x : String) (hx : x ∈ machineEnum)
    (hle : strLe "UNKNOWN" x) : x = "UNKNOWN" := by
  simp only [machineEnum, List.mem_cons, List.not_mem_nil, or_false] at hx
  rcases hx with rfl | rfl | rfl | rfl | rfl
  · exact absurd hle (by decide)
  · exact absurd hle (by decide)
  · exact absurd hle (by decide)
  · exact absurd hle (by decide)
  · rfl

/-- A sorted list of data-model machine labels splits into a prefix without
`"UNKNOWN"` followed by a suffix of `"UNKNOWN"`s. -/
theorem sorted_machines_split :
    ∀ ms : List String, List.Sorted strLe ms → (∀ x ∈ ms, x ∈ machineEnum) →
      ∃ p q, ms = p ++ q ∧ (∀ x ∈ p, x ≠ "UNKNOWN") ∧ (∀ x ∈ q, x = "UNKNOWN") := by
  intro ms
  induction ms with
  | nil =>
    intro _ _
    exact ⟨[], [], rfl, by simp, by simp⟩
  | cons m t ih =>
    intro hs hall
    obtain ⟨hle, hst⟩ := List.sorted_cons.mp hs
    by_cases hm : m = "UNKNOWN"
    · refine ⟨[], m :: t, rfl, by simp, ?_⟩
      intro x hx
      rcases List.mem_cons.mp hx with rfl | hx
      · exact hm
      · exact eq_unknown_of_le x (hall x (List.mem_cons_of_mem m hx))
          (hm ▸ hle x hx)
    · obtain ⟨p, q, hpq, hpne, hqU⟩ :=
        ih hst (fun x hx => hall x (List.mem_cons_of_mem m hx))
      refine ⟨m :: p, q, by rw [List.cons_append, hpq], ?_, hqU⟩
      intro x hx
      rcases List.mem_cons.mp hx with rfl | hx
      · exact hm
      · exact hpne x hx

/-- The annotation loop's outputs carry rows of its input. -/
theorem annotateAux_row_mem :
    ∀ (l : List Row) (prev : Row) (k : ℕ) (s : SeqRow),
      s ∈ annotateAux prev l k → s.row ∈ l := by
  intro l
  induction l with
  | nil =>
    intro prev k s hs
    exact absurd hs (List.not_mem_nil s)
  | cons r rest ih =>
    intro prev k s hs
    unfold annotateAux at hs
    rcases List.mem_cons.mp hs with rfl | hs
    · exact List.mem_cons_self _ _
    · exact List.mem_cons_of_mem r (ih r (k + 1) s hs)

/-- `annotate` outputs carry rows of its input. -/
theorem annotate_row_mem (l : List Row) (s : SeqRow) (hs : s ∈ annotate l) :
    s.row ∈ l := by
  cases l with
  | nil => exact absurd hs (List.not_mem_nil s)
  | cons r0 rest =>
    unfold annotate at hs
    rcases List.mem_cons.mp hs with rfl | hs
    · exact List.mem_cons_self _ _
    · exact List.mem_cons_of_mem r0 (annotateAux_row_mem rest r0 2 s hs)

/-- Every output row of `build_sequence_for_machine` is one of the
deduplicated input rows. -/
theorem build_row_mem (rows : List Row) (s : SeqRow)
    (hs : s ∈ build_sequence_for_machine rows) : s.row ∈ dedupRows rows := by
  unfold build_sequence_for_machine at hs
  dsimp only at hs
  by_cases hle : (dedupRows rows).length ≤ 1
  · rw [if_pos hle] at hs
    obtain ⟨p, hp, hsp⟩ := List.mem_map.mp hs
    have : p.2 ∈ (dedupRows rows).enum.map Prod.snd := List.mem_map_of_mem Prod.snd hp
    rw [List.enum_map_snd] at this
    rw [← hsp]
    exact this
  · rw [if_neg hle] at hs
    have hrow := annotate_row_mem _ s hs
    obtain ⟨i, hi, hgi⟩ := List.mem_map.mp hrow
    have hilt : i < (dedupRows rows).length := by
      have := seqOrder_mem ((dedupRows rows).map make_features) i hi
      rw [List.length_map] at this
      exact this
    rw [← hgi, List.getD_eq_getElem _ _ hilt]
    exact List.getElem_mem _

/-- On a constant-machine partition every output row keeps that machine. -/
theorem build_machine_const (rows : List Row) (m : String)
    (hm : ∀ r ∈ rows, r.machine = m) :
    ∀ s ∈ build_sequence_for_machine rows, s.row.machine = m := by
  intro s hs
  exact hm s.row (dedupAux_subset rows [] s.row (build_row_mem rows s hs))

/-- C4 (amended).  When every row's machine label belongs to the data model's
set, `propose_sequence` emits the machine partitions in sorted machine-label
order, so every `UNKNOWN`-machine output row comes after all classified rows:
the output equals its non-UNKNOWN part followed by its UNKNOWN part.  (The
UNKNOWN partition is *not* excluded from reordering — see the C4
counterexample.) -/
theorem C4_unknown_partition_last (rows : List Row)
    (hM : ∀ r ∈ rows, r.machine ∈ machineEnum) :
    propose_sequence rows
      = (propose_sequence rows).filter (fun s => !(s.row.machine == "UNKNOWN"))
        ++ (propose_sequence rows).filter (fun s => s.row.machine == "UNKNOWN") := by
  have hsorted : List.Sorted strLe (machinesSorted rows) :=
    List.sorted_insertionSort strLe _
  have hall : ∀ x ∈ machinesSorted rows, x ∈ machineEnum := by
    intro x hx
    unfold machinesSorted at hx
    have hx2 : x ∈ (rows.map (fun r => r.machine)).dedup :=
      (List.perm_insertionSort strLe _).mem_iff.mp hx
    obtain ⟨r, hr, hrx⟩ := List.mem_map.mp (List.mem_dedup.mp hx2)
    rw [← hrx]
    exact hM r hr
  obtain ⟨p, q, hpq, hpne, hqU⟩ :=
    sorted_machines_split (machinesSorted rows) hsorted hall
  have hchunk : ∀ m : String, ∀ s ∈ build_sequence_for_machine
      (rows.filter (fun r => r.machine == m)), s.row.machine = m := by
    intro m
    exact build_machine_const _ m (fun r hr => by
      have := List.of_mem_filter hr
      exact eq_of_beq this)
  unfold propose_sequence
  rw [hpq, List.map_append, List.flatten_append]
  have hA : ∀ s ∈ (p.map (fun m => build_sequence_for_machine
      (rows.filter (fun r => r.machine == m)))).flatten,
      (fun s : SeqRow => !(s.row.machine == "UNKNOWN")) s = true := by
    intro s hs
    obtain ⟨l, hl, hsl⟩ := List.mem_flatten.mp hs
    obtain ⟨m, hmp, hml⟩ := List.mem_map.mp hl
    have := hchunk m s (hml ▸ hsl)
    simp only [Bool.not_eq_true', beq_eq_false_iff_ne, ne_eq]
    rw [this]
    exact hpne m hmp
  have hB : ∀ s ∈ (q.map (fun m => build_sequence_for_machine
      (rows.filter (fun r => r.machine == m)))).flatten,
      (fun s : SeqRow => s.row.machine == "UNKNOWN") s = true := by
    intro s hs
    obtain ⟨l, hl, hsl⟩ := List.mem_flatten.mp hs
    obtain ⟨m, hmq, hml⟩ := List.mem_map.mp hl
    have := hchunk m s (hml ▸ hsl)
    simp only [beq_iff_eq]
    rw [this]
    exact hqU m hmq
  rw [List.filter_append, List.filter_append]
  rw [List.filter_eq_self.mpr hA]
  rw [List.filter_eq_nil_iff.mpr (fun s hs => by
    have hb := hB s hs
    simp only [beq_iff_eq] at hb
    simp [hb])]
  rw [List.filter_eq_nil_iff.mpr (fun s hs => by
    have ha := hA s hs
    simp only [Bool.not_eq_true'] at ha
    simp [ha])]
  rw [List.filter_eq_self.mpr hB]
  simp

/-- Mixed-machine batch for the C4 witness. -/
def rowKnownM1 : Row :=
  { product_name := "Vanilla 150g", flavour_label := "vanilla",
    is_plain_yoghurt := false, pack_size_g := some 150, machine := "M1" }

/-- UNKNOWN-machine rows for C4 (first). -/
def rowChocUnknown : Row :=
  { product_name := "Choco Cup", flavour_label := "", is_plain_yoghurt := false,
    pack_size_g := none, machine := "UNKNOWN" }

/-- UNKNOWN-machine rows for C4 (second; the plain one, which the start
heuristic prefers). -/
def rowPlainUnknown : Row :=
  { product_name := "Natural Plain", flavour_label := "", is_plain_yoghurt := true,
    pack_size_g := none, machine := "UNKNOWN" }

/-- Witness for the amended C4 on a batch mixing M1 and UNKNOWN rows. -/
theorem C4_unknown_partition_last_witness :
    (∀ r ∈ [rowChocUnknown, rowKnownM1, rowPlainUnknown], r.machine ∈ machineEnum)
    ∧ propose_sequence [rowChocUnknown, rowKnownM1, rowPlainUnknown]
      = (propose_sequence [rowChocUnknown, rowKnownM1, rowPlainUnknown]).filter
          (fun s => !(s.row.machine == "UNKNOWN"))
        ++ (propose_sequence [rowChocUnknown, rowKnownM1, rowPlainUnknown]).filter
          (fun s => s.row.machine == "UNKNOWN") :=
  ⟨by decide,
    C4_unknown_partition_last [rowChocUnknown, rowKnownM1, rowPlainUnknown] (by decide)⟩

/-- C4 counterexample: the UNKNOWN partition is fed through the same greedy
reordering as every other machine — two UNKNOWN jobs leave `propose_sequence`
in the opposite of their input order (the start heuristic picks the plain job
first), refuting "left in original input order / excluded from cost-based
reordering". -/
theorem C4_counterexample :
    (propose_sequence [rowChocUnknown, rowPlainUnknown]).map
        (fun s => s.row.product_name)
      = ["Natural Plain", "Choco Cup"] := by
  decide

end ProdSeq
